import Mathlib

/-!
Verification development for the `CardShuffler<T>` shuffle engine
(`src/CardShuffler.h`).  The C++ class is a template over an orderable
element type `T`; the development instantiates `T = Nat` (the code itself
only ever pushes the unsigned values `0 .. size-1` into the deck, so `Nat`
is the canonical instance).  `std::vector<T>` is embedded as `List Nat`,
and each member function of the class becomes a Lean function on an
explicit record of the class's member state.
-/

/-- Shadow of the C++ `enum class ShuffleType`. -/
inductive ShuffleType where
  | STL_SHUFFLE
  | FISHER_YATES
  | OUTSHUFFLE
  | INSHUFFLE
  | INV_OUTSHUFFLE
  | INV_INSHUFFLE
deriving DecidableEq, Repr

/-- Member state of `CardShuffler<T>` with `T = Nat`.  The three index
fields `m_FirstHalfIndex`, `m_SecondHalfIndex`, `m_MinVectorSize` are set
in the constructor and never read anywhere in the class, and are carried
here for fidelity.  The Mersenne-Twister engine `m_urng` is embedded as a
`Nat` state (see `mtNext`). -/
structure CardShuffler where
  m_deck : List Nat
  m_DeckCopy : List Nat
  m_bIsDeckOdd : Bool
  m_deckSize : Nat
  m_FirstHalfIndex : Nat
  m_SecondHalfIndex : Nat
  m_MinVectorSize : Nat
  m_urng : Nat
deriving DecidableEq, Repr

/-- Modelled from the spec: `std::mt19937_64` is standard-library code not
present in `src/`; the spec only requires a deterministic pseudo-random
engine whose state advances on each draw.  It is modelled as a 64-bit
linear-congruential step: `mtNext state = (drawn value, next state)`.
No claim depends on the particular values drawn. -/
def mtNext (state : Nat) : Nat × Nat :=
  (state % 2 ^ 64, (6364136223846793005 * state + 1442695040888963407) % 2 ^ 64)

/-- Modelled from the spec: `std::uniform_int_distribution<size_t>(0, hi)`
is standard-library code not present in `src/`; it draws one value from
the engine and maps it into `[0, hi]` inclusive.  The only property the
development uses is that the result is `≤ hi`. -/
def uniformInt (hi : Nat) (rng : Nat) : Nat × Nat :=
  let v := (mtNext rng).1
  (v % (hi + 1), (mtNext rng).2)

/-- Embedding of `std::swap(m_deck[i], m_deck[j])` on the list deck:
write the old `j`-th element at `i` and the old `i`-th element at `j`.
`List.set` / `List.getD` are no-ops / defaulted out of range, matching
the fact that the C++ is only ever invoked with in-range indices. -/
def swapList (l : List Nat) (i j : Nat) : List Nat :=
  (l.set i (l.getD j 0)).set j (l.getD i 0)

/-- Embedding of the Fisher-Yates loop of `PerformShuffle`
(`for (size_t i = deckSize-1; i > 0; --i)`): the first argument is the
current loop variable `i`; at each step draw `j` uniformly from `[0, i]`
and swap positions `i` and `j`.  The pair carries `(m_deck, m_urng)`. -/
def fyLoop : Nat → List Nat × Nat → List Nat × Nat
  | 0, p => p
  | i + 1, (deck, rng) =>
    let jr := uniformInt (i + 1) rng
    fyLoop i (swapList deck (i + 1) jr.1, jr.2)

/-- Embedding of the helper `copy_every_n` specialised to its only call
pattern `n = 2`: the C++ loop runs `distance(srcBegin, srcEnd) / 2` times,
each time copying the element at the iterator into destination 1 and the
one right after it into destination 2, then advancing by 2.  So even
offsets of the range go to the first component, odd offsets to the second,
and a trailing lone element of an odd-length range is never read. -/
def deinterleave : List Nat → List Nat × List Nat
  | a :: b :: rest =>
    let p := deinterleave rest
    (a :: p.1, b :: p.2)
  | _ => ([], [])

/-- Interleaving loop of the OUTSHUFFLE/INSHUFFLE case: positions
`2i`/`2i+1` of the result take the `i`-th elements of the two captured
halves, stopping after `min` of the lengths pairs (the C++ loop bound
`minSize = min(half1, half2)` equals that `min` whenever the member state
is consistent, i.e. `m_deckSize = m_deck.size()`). -/
def interleave2 : List Nat → List Nat → List Nat
  | a :: as, b :: bs => a :: b :: interleave2 as bs
  | _, _ => []

/-- Embedding of `std::copy(src.begin(), src.end(), dst.begin() + pos)`:
overwrite `src.length` positions of `dst` starting at `pos`.  (The C++ is
only ever invoked with `pos + src.length ≤ dst.length`, where this is
exactly the in-place overwrite.) -/
def vecCopyAt (dst : List Nat) (pos : Nat) (src : List Nat) : List Nat :=
  dst.take pos ++ src ++ dst.drop (pos + src.length)

/-- Embedding of the merged `OUTSHUFFLE` / `INSHUFFLE` case of
`PerformShuffle` (`isIn = true` for `INSHUFFLE`).  `half1` is
`m_deckSize/2` for in-shuffles and `(m_deckSize+1)/2` for out-shuffles;
the two halves are captured from the pre-shuffle deck, interleaved into
positions `[0, 2*minSize)`, and for an odd deck the last position is
assigned explicitly from the captured halves. -/
def forwardRiffle (isIn : Bool) (deckSize : Nat) (isOdd : Bool)
    (deck : List Nat) : List Nat :=
  let half1 := if isIn then deckSize / 2 else (deckSize + 1) / 2
  let half2 := deckSize - half1
  let vecFirstHalf := deck.take half1
  let vecSecondHalf := deck.drop half1
  let interleaved :=
    if isIn then interleave2 vecSecondHalf vecFirstHalf
    else interleave2 vecFirstHalf vecSecondHalf
  let d1 := vecCopyAt deck 0 interleaved
  if isOdd then
    if isIn then d1.set (deckSize - 1) (vecSecondHalf.getD (half2 - 1) 0)
    else d1.set (deckSize - 1) (vecFirstHalf.getD (half1 - 1) 0)
  else d1

/-- Embedding of the merged `INV_INSHUFFLE` / `INV_OUTSHUFFLE` case of
`PerformShuffle` (`isIn = true` for `INV_INSHUFFLE`).  `half1` is
`m_deckSize/2` when the deck is odd and `(m_deckSize+1)/2` when even.
Each branch deinterleaves the scanned iterator range into the two scratch
vectors (`.1` = vecFirstHalf = even offsets, `.2` = vecSecondHalf = odd
offsets) and then copies them back at the positions the C++ uses:
inverse-in writes second-half then first-half at `0` / `half1`
(odd decks scan only `[begin, end-1)`); inverse-out with an odd deck
scans `[begin+1, end)` and writes at `1` / `half1 + 1`, and with an even
deck writes first-half then second-half at `0` / `half1`. -/
def inverseRiffle (isIn : Bool) (deckSize : Nat) (isOdd : Bool)
    (deck : List Nat) : List Nat :=
  let half1 := if isOdd then deckSize / 2 else (deckSize + 1) / 2
  if isIn then
    if isOdd then
      let ab := deinterleave (deck.take (deck.length - 1))
      vecCopyAt (vecCopyAt deck 0 ab.2) half1 ab.1
    else
      let ab := deinterleave deck
      vecCopyAt (vecCopyAt deck 0 ab.2) half1 ab.1
  else
    if isOdd then
      let ab := deinterleave (deck.drop 1)
      vecCopyAt (vecCopyAt deck 1 ab.2) (half1 + 1) ab.1
    else
      let ab := deinterleave deck
      vecCopyAt (vecCopyAt deck 0 ab.1) half1 ab.2

namespace CardShuffler

/-- Embedding of the constructor `CardShuffler()`: all members zeroed,
the engine seeded from a caller-supplied value (the C++ seeds from the
high-resolution clock; the seed is a parameter here). -/
def init (seed : Nat) : CardShuffler :=
  { m_deck := [], m_DeckCopy := [], m_bIsDeckOdd := false, m_deckSize := 0,
    m_FirstHalfIndex := 0, m_SecondHalfIndex := 0, m_MinVectorSize := 0,
    m_urng := seed }

/-- Embedding of `GetDeck()`: returns (a copy of) `m_deck`. -/
def GetDeck (s : CardShuffler) : List Nat := s.m_deck

/-- Embedding of `IsDeckRestored()`'s `std::is_sorted(begin, end)`:
true iff no element is less than its predecessor. -/
def is_sorted : List Nat → Bool
  | [] => true
  | [_] => true
  | a :: b :: rest => decide (a ≤ b) && is_sorted (b :: rest)

/-- Embedding of `IsDeckRestored()`. -/
def IsDeckRestored (s : CardShuffler) : Bool := is_sorted s.m_deck

/-- Embedding of `GenerateDeck(size)`: for `size < MIN_DECK_SIZE = 3`
return an empty vector with the state untouched; otherwise replace
`m_deck` by `0, 1, ..., size-1`, clear `m_DeckCopy`, record the size and
the parity flag, and return the new deck. -/
def GenerateDeck (s : CardShuffler) (size : Nat) : List Nat × CardShuffler :=
  if size < 3 then ([], s)
  else
    let deck := List.range size
    (deck,
      { s with m_deck := deck, m_DeckCopy := [], m_deckSize := size,
               m_bIsDeckOdd := size % 2 == 1 })

/-- Embedding of `ResetDeck()`: regenerate with the current deck size. -/
def ResetDeck (s : CardShuffler) : CardShuffler :=
  (s.GenerateDeck s.m_deck.length).2

/-- Embedding of `PerformShuffle(shuffleType)`.  The `STL_SHUFFLE` branch
is `std::shuffle(m_deck.begin(), m_deck.end(), m_urng)`; that algorithm
is standard-library code not present in `src/` and is modelled from the
spec ("uniform random permutation of all N items using the shared
engine") as the canonical descending Fisher-Yates loop over the range,
driving the same engine; note it uses the actual range size while the
explicit `FISHER_YATES` branch of the source uses `m_deckSize`. -/
def PerformShuffle (s : CardShuffler) (shuffleType : ShuffleType) :
    CardShuffler :=
  match shuffleType with
  | .STL_SHUFFLE =>
    let p := fyLoop (s.m_deck.length - 1) (s.m_deck, s.m_urng)
    { s with m_deck := p.1, m_urng := p.2 }
  | .FISHER_YATES =>
    let p := fyLoop (s.m_deckSize - 1) (s.m_deck, s.m_urng)
    { s with m_deck := p.1, m_urng := p.2 }
  | .OUTSHUFFLE =>
    { s with m_deck := forwardRiffle false s.m_deckSize s.m_bIsDeckOdd s.m_deck }
  | .INSHUFFLE =>
    { s with m_deck := forwardRiffle true s.m_deckSize s.m_bIsDeckOdd s.m_deck }
  | .INV_OUTSHUFFLE =>
    { s with m_deck := inverseRiffle false s.m_deckSize s.m_bIsDeckOdd s.m_deck }
  | .INV_INSHUFFLE =>
    { s with m_deck := inverseRiffle true s.m_deckSize s.m_bIsDeckOdd s.m_deck }

/-- Embedding of `RestoreDeck(shuffle)`: the C++ runs an unbounded
do-while loop (shuffle once, count, stop when `IsDeckRestored()`), so the
embedding takes an explicit fuel bound; `some (n, s')` means the loop
terminated after exactly `n` shuffle applications (counting from 1 for
the first) and the C++ call returns `n`, `none` means it did not
terminate within `fuel` iterations. -/
def RestoreDeck (fuel : Nat) (s : CardShuffler) (shuffle : ShuffleType) :
    Option (Nat × CardShuffler) :=
  match fuel with
  | 0 => none
  | fuel + 1 =>
    let s1 := s.PerformShuffle shuffle
    if s1.IsDeckRestored then some (1, s1)
    else
      match RestoreDeck fuel s1 shuffle with
      | none => none
      | some p => some (p.1 + 1, p.2)

end CardShuffler

/-- Concrete engine state with the canonical 5-card deck `[0,1,2,3,4]`
(the seed is irrelevant to every deterministic operation). -/
def deck5State : CardShuffler := ((CardShuffler.init 0).GenerateDeck 5).2

/-- Concrete engine state with the canonical 6-card deck `[0,1,2,3,4,5]`. -/
def deck6State : CardShuffler := ((CardShuffler.init 0).GenerateDeck 6).2

/-- Concrete engine state with the canonical 52-card deck `0 .. 51`. -/
def deck52State : CardShuffler := ((CardShuffler.init 0).GenerateDeck 52).2

/-- Written from the claim's own words, for the refutation of the claim
about the odd inverse out-shuffle: the claim says half A (the items at
deck positions 1,3,5,...) is written first and half B (the items at deck
positions 2,4,6,...) second into positions `[1, N)`.  This definition
follows that description; `inverseRiffle` follows the source, which
writes B first and A second. -/
def invOutOddClaimed (deck : List Nat) : List Nat :=
  deck.take 1 ++ (deinterleave (deck.drop 1)).1 ++ (deinterleave (deck.drop 1)).2

/-! ### Algebra of the interleave / deinterleave helpers -/

theorem interleave2_length : ∀ as bs : List Nat,
    (interleave2 as bs).length = 2 * min as.length bs.length
  | [], bs => by simp [interleave2]
  | a :: as, [] => by simp [interleave2]
  | a :: as, b :: bs => by
    simp [interleave2, interleave2_length as bs]; omega

theorem deinterleave_fst_length : ∀ l : List Nat,
    (deinterleave l).1.length = l.length / 2
  | [] => by simp [deinterleave]
  | [a] => by simp [deinterleave]
  | a :: b :: rest => by
    simp [deinterleave, deinterleave_fst_length rest]; omega

theorem deinterleave_snd_length : ∀ l : List Nat,
    (deinterleave l).2.length = l.length / 2
  | [] => by simp [deinterleave]
  | [a] => by simp [deinterleave]
  | a :: b :: rest => by
    simp [deinterleave, deinterleave_snd_length rest]; omega

theorem deinterleave_interleave2 : ∀ as bs : List Nat,
    as.length = bs.length → deinterleave (interleave2 as bs) = (as, bs)
  | [], [], _ => by simp [interleave2, deinterleave]
  | [], b :: bs, h => by simp at h
  | a :: as, [], h => by simp at h
  | a :: as, b :: bs, h => by
    simp only [List.length_cons, Nat.add_right_cancel_iff] at h
    simp [interleave2, deinterleave, deinterleave_interleave2 as bs h]

theorem interleave2_snoc_left : ∀ (as bs : List Nat) (x : Nat),
    as.length = bs.length → interleave2 (as ++ [x]) bs = interleave2 as bs
  | [], [], x, _ => by simp [interleave2]
  | [], b :: bs, x, h => by simp at h
  | a :: as, [], x, h => by simp at h
  | a :: as, b :: bs, x, h => by
    simp only [List.length_cons, Nat.add_right_cancel_iff] at h
    simp [interleave2, interleave2_snoc_left as bs x h]

theorem getD_cons_len : ∀ (as : List Nat) (a : Nat),
    (a :: as).getD as.length 0 = as.getLastD a
  | [], a => by simp
  | a1 :: as, a => by
    rw [show (a1 :: as).length = as.length + 1 from rfl, List.getD_cons_succ,
      getD_cons_len as a1, List.getLastD_cons]

theorem interleave2_cons_snoc : ∀ (as bs : List Nat) (a : Nat),
    as.length = bs.length →
    interleave2 (a :: as) bs ++ [as.getLastD a] = a :: interleave2 bs as
  | [], [], a, _ => by simp [interleave2]
  | [], b :: bs, a, h => by simp at h
  | a1 :: as, [], a, h => by simp at h
  | a1 :: as, b :: bs, a, h => by
    simp only [List.length_cons, Nat.add_right_cancel_iff] at h
    have ih := interleave2_cons_snoc as bs a1 h
    simp only [interleave2, List.cons_append, List.getLastD_cons]
    rw [show (a :: b :: (interleave2 (a1 :: as) bs ++ [as.getLastD a1]))
          = a :: b :: (a1 :: interleave2 bs as) from by rw [ih]]

theorem interleave2_perm : ∀ as bs : List Nat, as.length = bs.length →
    (interleave2 as bs).Perm (as ++ bs)
  | [], [], _ => by simp [interleave2]
  | [], b :: bs, h => by simp at h
  | a :: as, [], h => by simp at h
  | a :: as, b :: bs, h => by
    simp only [List.length_cons, Nat.add_right_cancel_iff] at h
    simp only [interleave2, List.cons_append]
    exact (((interleave2_perm as bs h).cons b).trans List.perm_middle.symm).cons a

theorem deinterleave_append_perm : ∀ l : List Nat, l.length % 2 = 0 →
    ((deinterleave l).1 ++ (deinterleave l).2).Perm l
  | [], _ => by simp [deinterleave]
  | [a], h => by simp at h
  | a :: b :: rest, h => by
    simp only [List.length_cons] at h
    have hrest : rest.length % 2 = 0 := by omega
    simp only [deinterleave, List.cons_append]
    exact (List.perm_middle.trans ((deinterleave_append_perm rest hrest).cons b)).cons a

theorem deinterleave_fst_getD : ∀ (l : List Nat) (i : Nat), i < l.length / 2 →
    (deinterleave l).1.getD i 0 = l.getD (2 * i) 0
  | [], i, h => by simp only [List.length_nil] at h; omega
  | [a], i, h => by simp only [List.length_singleton] at h; omega
  | a :: b :: rest, 0, h => by simp [deinterleave]
  | a :: b :: rest, i + 1, h => by
    simp only [List.length_cons] at h
    have hi : i < rest.length / 2 := by omega
    have h2 : 2 * (i + 1) = 2 * i + 1 + 1 := by omega
    simp only [deinterleave, h2, List.getD_cons_succ]
    exact deinterleave_fst_getD rest i hi

theorem deinterleave_snd_getD : ∀ (l : List Nat) (i : Nat), i < l.length / 2 →
    (deinterleave l).2.getD i 0 = l.getD (2 * i + 1) 0
  | [], i, h => by simp only [List.length_nil] at h; omega
  | [a], i, h => by simp only [List.length_singleton] at h; omega
  | a :: b :: rest, 0, h => by simp [deinterleave]
  | a :: b :: rest, i + 1, h => by
    simp only [List.length_cons] at h
    have hi : i < rest.length / 2 := by omega
    have h2 : 2 * (i + 1) + 1 = 2 * i + 1 + 1 + 1 := by omega
    simp only [deinterleave, h2, List.getD_cons_succ]
    exact deinterleave_snd_getD rest i hi

theorem set_append_len (l : List Nat) (y x : Nat) :
    (l ++ [y]).set l.length x = l ++ [x] := by
  induction l with
  | nil => simp
  | cons a t ih => simp [ih]

/-! ### Closed forms of the riffle branches on size-consistent states -/

theorem forwardRiffle_out_even (m : Nat) (deck : List Nat)
    (h : deck.length = 2 * m) :
    forwardRiffle false (2 * m) false deck
      = interleave2 (deck.take m) (deck.drop m) := by
  have h1 : (2 * m + 1) / 2 = m := by omega
  have hlen : (interleave2 (deck.take m) (deck.drop m)).length = 2 * m := by
    rw [interleave2_length]
    simp only [List.length_take, List.length_drop, h]
    omega
  simp only [forwardRiffle, vecCopyAt, h1, if_false, Bool.false_eq_true,
    List.take_zero, List.nil_append, Nat.zero_add, hlen]
  rw [show List.drop (2 * m) deck = [] from List.drop_eq_nil_of_le (by omega),
    List.append_nil]

theorem forwardRiffle_in_even (m : Nat) (deck : List Nat)
    (h : deck.length = 2 * m) :
    forwardRiffle true (2 * m) false deck
      = interleave2 (deck.drop m) (deck.take m) := by
  have h1 : 2 * m / 2 = m := by omega
  have hlen : (interleave2 (deck.drop m) (deck.take m)).length = 2 * m := by
    rw [interleave2_length]
    simp only [List.length_take, List.length_drop, h]
    omega
  simp only [forwardRiffle, vecCopyAt, h1, if_false, if_true, Bool.false_eq_true,
    List.take_zero, List.nil_append, Nat.zero_add, hlen]
  rw [show List.drop (2 * m) deck = [] from List.drop_eq_nil_of_le (by omega),
    List.append_nil]

theorem forwardRiffle_out_odd (m : Nat) (deck : List Nat)
    (h : deck.length = 2 * m + 1) :
    forwardRiffle false (2 * m + 1) true deck
      = interleave2 (deck.take (m + 1)) (deck.drop (m + 1))
          ++ [(deck.take (m + 1)).getD m 0] := by
  have h1 : (2 * m + 1 + 1) / 2 = m + 1 := by omega
  have hlen : (interleave2 (deck.take (m + 1)) (deck.drop (m + 1))).length
      = 2 * m := by
    rw [interleave2_length]
    simp only [List.length_take, List.length_drop, h]
    omega
  obtain ⟨e, he⟩ : ∃ e, deck.drop (2 * m) = [e] := by
    apply List.length_eq_one.mp
    simp [List.length_drop, h]
  simp only [forwardRiffle, vecCopyAt, h1, if_false, Bool.false_eq_true,
    if_true, List.take_zero, List.nil_append, Nat.zero_add, hlen, he]
  rw [show m + 1 - 1 = m from by omega,
    show 2 * m + 1 - 1 = 2 * m from by omega,
    show (2 * m : Nat) = (interleave2 (deck.take (m + 1)) (deck.drop (m + 1))).length
      from hlen.symm,
    set_append_len]

theorem forwardRiffle_in_odd (m : Nat) (deck : List Nat)
    (h : deck.length = 2 * m + 1) :
    forwardRiffle true (2 * m + 1) true deck
      = interleave2 (deck.drop m) (deck.take m)
          ++ [(deck.drop m).getD m 0] := by
  have h1 : (2 * m + 1) / 2 = m := by omega
  have hlen : (interleave2 (deck.drop m) (deck.take m)).length = 2 * m := by
    rw [interleave2_length]
    simp only [List.length_take, List.length_drop, h]
    omega
  obtain ⟨e, he⟩ : ∃ e, deck.drop (2 * m) = [e] := by
    apply List.length_eq_one.mp
    simp [List.length_drop, h]
  simp only [forwardRiffle, vecCopyAt, h1, if_true,
    List.take_zero, List.nil_append, Nat.zero_add, hlen, he]
  rw [show 2 * m + 1 - m - 1 = m from by omega,
    show 2 * m + 1 - 1 = 2 * m from by omega,
    show (2 * m : Nat) = (interleave2 (deck.drop m) (deck.take m)).length
      from hlen.symm,
    set_append_len]

theorem inverseRiffle_out_even (m : Nat) (deck : List Nat)
    (h : deck.length = 2 * m) :
    inverseRiffle false (2 * m) false deck
      = (deinterleave deck).1 ++ (deinterleave deck).2 := by
  have h1 : (2 * m + 1) / 2 = m := by omega
  have hA : (deinterleave deck).1.length = m := by
    rw [deinterleave_fst_length, h]; omega
  have hB : (deinterleave deck).2.length = m := by
    rw [deinterleave_snd_length, h]; omega
  simp only [inverseRiffle, vecCopyAt, h1, if_false, Bool.false_eq_true,
    List.take_zero, List.nil_append, Nat.zero_add, hA, hB]
  rw [List.take_left' hA,
    show List.drop (m + m) ((deinterleave deck).1 ++ deck.drop m) = []
      from List.drop_eq_nil_of_le (by simp [hA, List.length_drop, h]; omega),
    List.append_nil]

theorem inverseRiffle_in_even (m : Nat) (deck : List Nat)
    (h : deck.length = 2 * m) :
    inverseRiffle true (2 * m) false deck
      = (deinterleave deck).2 ++ (deinterleave deck).1 := by
  have h1 : (2 * m + 1) / 2 = m := by omega
  have hA : (deinterleave deck).1.length = m := by
    rw [deinterleave_fst_length, h]; omega
  have hB : (deinterleave deck).2.length = m := by
    rw [deinterleave_snd_length, h]; omega
  simp only [inverseRiffle, vecCopyAt, h1, if_false, if_true, Bool.false_eq_true,
    List.take_zero, List.nil_append, Nat.zero_add, hA, hB]
  rw [List.take_left' hB,
    show List.drop (m + m) ((deinterleave deck).2 ++ deck.drop m) = []
      from List.drop_eq_nil_of_le (by simp [hB, List.length_drop, h]; omega),
    List.append_nil]


theorem inverseRiffle_out_odd (m : Nat) (deck : List Nat)
    (h : deck.length = 2 * m + 1) :
    inverseRiffle false (2 * m + 1) true deck
      = deck.take 1 ++ (deinterleave (deck.drop 1)).2
          ++ (deinterleave (deck.drop 1)).1 := by
  have h1 : (2 * m + 1) / 2 = m := by omega
  have hA : (deinterleave (deck.drop 1)).1.length = m := by
    rw [deinterleave_fst_length, List.length_drop, h]; omega
  have hB : (deinterleave (deck.drop 1)).2.length = m := by
    rw [deinterleave_snd_length, List.length_drop, h]; omega
  have htake1 : (deck.take 1).length = 1 := by
    rw [List.length_take]; omega
  have hTB : (deck.take 1 ++ (deinterleave (deck.drop 1)).2).length = m + 1 := by
    rw [List.length_append, htake1, hB]; omega
  simp only [inverseRiffle, vecCopyAt, h1, if_false, if_true,
    Bool.false_eq_true, Nat.zero_add, hA, hB]
  rw [List.take_left' hTB,
    show (deck.take 1 ++ (deinterleave (deck.drop 1)).2
        ++ deck.drop (1 + m)).drop (m + 1 + m) = [] from
      List.drop_eq_nil_of_le (by
        simp only [List.length_append, htake1, hB, List.length_drop, h]
        omega),
    List.append_nil]

theorem inverseRiffle_in_odd (m : Nat) (deck : List Nat)
    (h : deck.length = 2 * m + 1) :
    inverseRiffle true (2 * m + 1) true deck
      = (deinterleave (deck.take (2 * m))).2
          ++ (deinterleave (deck.take (2 * m))).1 ++ deck.drop (2 * m) := by
  have h1 : (2 * m + 1) / 2 = m := by omega
  have hscan : deck.length - 1 = 2 * m := by omega
  have hA : (deinterleave (deck.take (2 * m))).1.length = m := by
    rw [deinterleave_fst_length, List.length_take, h]; omega
  have hB : (deinterleave (deck.take (2 * m))).2.length = m := by
    rw [deinterleave_snd_length, List.length_take, h]; omega
  simp only [inverseRiffle, vecCopyAt, h1, if_true, hscan,
    List.take_zero, List.nil_append, Nat.zero_add, hA, hB]
  rw [List.take_left' hB,
    show m + m = (deinterleave (deck.take (2 * m))).2.length + m from by
      rw [hB],
    List.drop_append, List.drop_drop,
    show m + m = 2 * m from by omega, List.append_assoc]

/-! ### State plumbing: the riffle branches only rewrite `m_deck` -/

theorem PerformShuffle_OUTSHUFFLE (s : CardShuffler) :
    s.PerformShuffle .OUTSHUFFLE
      = { s with m_deck := forwardRiffle false s.m_deckSize s.m_bIsDeckOdd s.m_deck } :=
  rfl

theorem PerformShuffle_INSHUFFLE (s : CardShuffler) :
    s.PerformShuffle .INSHUFFLE
      = { s with m_deck := forwardRiffle true s.m_deckSize s.m_bIsDeckOdd s.m_deck } :=
  rfl

theorem PerformShuffle_INV_OUTSHUFFLE (s : CardShuffler) :
    s.PerformShuffle .INV_OUTSHUFFLE
      = { s with m_deck := inverseRiffle false s.m_deckSize s.m_bIsDeckOdd s.m_deck } :=
  rfl

theorem PerformShuffle_INV_INSHUFFLE (s : CardShuffler) :
    s.PerformShuffle .INV_INSHUFFLE
      = { s with m_deck := inverseRiffle true s.m_deckSize s.m_bIsDeckOdd s.m_deck } :=
  rfl

/-! ### Round-trip cores at the deck level -/

theorem getD_cons_of_len (as : List Nat) (a : Nat) (n : Nat)
    (h : as.length = n) : (a :: as).getD n 0 = as.getLastD a := by
  subst h; exact getD_cons_len as a

theorem getD_append_len : ∀ (l : List Nat) (z : Nat),
    (l ++ [z]).getD l.length 0 = z
  | [], z => by simp
  | a :: t, z => by
    rw [List.cons_append, show ((a :: t).length) = t.length + 1 from rfl,
      List.getD_cons_succ, getD_append_len t z]

theorem getD_append_of_len (l : List Nat) (z : Nat) (n : Nat)
    (h : l.length = n) : (l ++ [z]).getD n 0 = z := by
  subst h; exact getD_append_len l z

theorem out_roundtrip_even (m : Nat) (deck : List Nat)
    (h : deck.length = 2 * m) :
    inverseRiffle false (2 * m) false (forwardRiffle false (2 * m) false deck)
      = deck := by
  have ht : (deck.take m).length = m := by rw [List.length_take]; omega
  have hd : (deck.drop m).length = m := by rw [List.length_drop]; omega
  have hlen2 : (interleave2 (deck.take m) (deck.drop m)).length = 2 * m := by
    rw [interleave2_length, ht, hd]; omega
  rw [forwardRiffle_out_even m deck h, inverseRiffle_out_even m _ hlen2,
    deinterleave_interleave2 _ _ (ht.trans hd.symm), List.take_append_drop]

theorem in_roundtrip_even (m : Nat) (deck : List Nat)
    (h : deck.length = 2 * m) :
    inverseRiffle true (2 * m) false (forwardRiffle true (2 * m) false deck)
      = deck := by
  have ht : (deck.take m).length = m := by rw [List.length_take]; omega
  have hd : (deck.drop m).length = m := by rw [List.length_drop]; omega
  have hlen2 : (interleave2 (deck.drop m) (deck.take m)).length = 2 * m := by
    rw [interleave2_length, ht, hd]; omega
  rw [forwardRiffle_in_even m deck h, inverseRiffle_in_even m _ hlen2,
    deinterleave_interleave2 _ _ (hd.trans ht.symm), List.take_append_drop]

theorem out_roundtrip_odd (m : Nat) (deck : List Nat)
    (h : deck.length = 2 * m + 1) :
    inverseRiffle false (2 * m + 1) true (forwardRiffle false (2 * m + 1) true deck)
      = deck := by
  match deck, h with
  | a :: rest, h =>
    have hrest : rest.length = 2 * m := by simp at h; omega
    have ht : (rest.take m).length = m := by rw [List.length_take]; omega
    have hd : (rest.drop m).length = m := by rw [List.length_drop]; omega
    rw [forwardRiffle_out_odd m _ h, List.take_succ_cons, List.drop_succ_cons,
      getD_cons_of_len _ _ _ ht,
      interleave2_cons_snoc _ _ _ (ht.trans hd.symm)]
    have hlen2 : (a :: interleave2 (rest.drop m) (rest.take m)).length
        = 2 * m + 1 := by
      rw [List.length_cons, interleave2_length, ht, hd]; omega
    rw [inverseRiffle_out_odd m _ hlen2, List.take_succ_cons, List.take_zero,
      List.drop_succ_cons, List.drop_zero,
      deinterleave_interleave2 _ _ (hd.trans ht.symm)]
    simp [List.take_append_drop]

theorem in_roundtrip_odd (m : Nat) (deck : List Nat)
    (h : deck.length = 2 * m + 1) :
    inverseRiffle true (2 * m + 1) true (forwardRiffle true (2 * m + 1) true deck)
      = deck := by
  have ht : (deck.take m).length = m := by rw [List.length_take]; omega
  have hd : (deck.drop m).length = m + 1 := by rw [List.length_drop]; omega
  rcases List.eq_nil_or_concat (deck.drop m) with hnil | ⟨sInit, z, hsec⟩
  · rw [hnil] at hd; simp at hd
  · rw [List.concat_eq_append] at hsec
    have hsi : sInit.length = m := by
      have := congrArg List.length hsec
      simp only [List.length_append, List.length_singleton, hd] at this
      omega
    rw [forwardRiffle_in_odd m deck h, hsec,
      interleave2_snoc_left _ _ _ (hsi.trans ht.symm),
      getD_append_of_len _ _ _ hsi]
    have hil : (interleave2 sInit (deck.take m)).length = 2 * m := by
      rw [interleave2_length, hsi, ht]; omega
    have hlen2 : (interleave2 sInit (deck.take m) ++ [z]).length = 2 * m + 1 := by
      rw [List.length_append, hil]; simp
    rw [inverseRiffle_in_odd m _ hlen2, List.take_left' hil,
      List.drop_left' hil, deinterleave_interleave2 _ _ (hsi.trans ht.symm)]
    rw [List.append_assoc, ← hsec, List.take_append_drop]

/-! ### Permutation invariance machinery -/

theorem cons_set_perm : ∀ (t : List Nat) (j : Nat) (a : Nat), j < t.length →
    (t.getD j 0 :: t.set j a).Perm (a :: t)
  | [], j, a, h => by simp at h
  | b :: u, 0, a, _ => by
    simp only [List.getD_cons_zero, List.set_cons_zero]
    exact List.Perm.swap a b u
  | b :: u, j + 1, a, h => by
    simp only [List.getD_cons_succ, List.set_cons_succ]
    have hj : j < u.length := by simp at h; omega
    exact ((List.Perm.swap b (u.getD j 0) (u.set j a)).trans
      ((cons_set_perm u j a hj).cons b)).trans (List.Perm.swap a b u)

theorem swapList_perm : ∀ (l : List Nat) (i j : Nat), i < l.length →
    j < l.length → (swapList l i j).Perm l
  | [], i, j, hi, _ => by simp at hi
  | a :: t, 0, 0, _, _ => by simp [swapList]
  | a :: t, 0, j + 1, _, hj => by
    simp only [swapList, List.getD_cons_zero, List.getD_cons_succ,
      List.set_cons_zero, List.set_cons_succ]
    exact cons_set_perm t j a (by simp at hj; omega)
  | a :: t, i + 1, 0, hi, _ => by
    simp only [swapList, List.getD_cons_zero, List.getD_cons_succ,
      List.set_cons_zero, List.set_cons_succ]
    exact cons_set_perm t i a (by simp at hi; omega)
  | a :: t, i + 1, j + 1, hi, hj => by
    simp only [swapList, List.getD_cons_succ, List.set_cons_succ]
    exact (swapList_perm t i j (by simp at hi; omega)
      (by simp at hj; omega)).cons a

theorem swapList_length (l : List Nat) (i j : Nat) :
    (swapList l i j).length = l.length := by
  simp [swapList]

theorem fyLoop_perm : ∀ (i : Nat) (deck : List Nat) (rng : Nat),
    i < deck.length → ((fyLoop i (deck, rng)).1).Perm deck
  | 0, deck, _, _ => List.Perm.refl deck
  | i + 1, deck, rng, h => by
    simp only [fyLoop]
    have hmod : (mtNext rng).1 % (i + 1 + 1) < i + 1 + 1 :=
      Nat.mod_lt _ (by omega)
    have hj : (uniformInt (i + 1) rng).1 < deck.length := by
      simp only [uniformInt]
      omega
    have hswap := swapList_perm deck (i + 1) (uniformInt (i + 1) rng).1 h hj
    have hlen := swapList_length deck (i + 1) (uniformInt (i + 1) rng).1
    exact (fyLoop_perm i _ (uniformInt (i + 1) rng).2
      (by rw [hlen]; omega)).trans hswap

theorem forwardRiffle_perm_even (m : Nat) (deck : List Nat)
    (h : deck.length = 2 * m) (isIn : Bool) :
    (forwardRiffle isIn (2 * m) false deck).Perm deck := by
  have ht : (deck.take m).length = m := by rw [List.length_take]; omega
  have hd : (deck.drop m).length = m := by rw [List.length_drop]; omega
  cases isIn with
  | false =>
    rw [forwardRiffle_out_even m deck h]
    exact (interleave2_perm _ _ (ht.trans hd.symm)).trans
      (by rw [List.take_append_drop])
  | true =>
    rw [forwardRiffle_in_even m deck h]
    exact ((interleave2_perm _ _ (hd.trans ht.symm)).trans
      List.perm_append_comm).trans (by rw [List.take_append_drop])

theorem forwardRiffle_perm_odd (m : Nat) (deck : List Nat)
    (h : deck.length = 2 * m + 1) (isIn : Bool) :
    (forwardRiffle isIn (2 * m + 1) true deck).Perm deck := by
  cases isIn with
  | false =>
    match deck, h with
    | a :: rest, h =>
      have hrest : rest.length = 2 * m := by simp at h; omega
      have ht : (rest.take m).length = m := by rw [List.length_take]; omega
      have hd : (rest.drop m).length = m := by rw [List.length_drop]; omega
      rw [forwardRiffle_out_odd m _ h, List.take_succ_cons, List.drop_succ_cons,
        getD_cons_of_len _ _ _ ht,
        interleave2_cons_snoc _ _ _ (ht.trans hd.symm)]
      exact (((interleave2_perm _ _ (hd.trans ht.symm)).trans
        List.perm_append_comm).trans (by rw [List.take_append_drop])).cons a
  | true =>
    have ht : (deck.take m).length = m := by rw [List.length_take]; omega
    have hd : (deck.drop m).length = m + 1 := by rw [List.length_drop]; omega
    rcases List.eq_nil_or_concat (deck.drop m) with hnil | ⟨sInit, z, hsec⟩
    · rw [hnil] at hd; simp at hd
    · rw [List.concat_eq_append] at hsec
      have hsi : sInit.length = m := by
        have := congrArg List.length hsec
        simp only [List.length_append, List.length_singleton, hd] at this
        omega
      rw [forwardRiffle_in_odd m deck h, hsec,
        interleave2_snoc_left _ _ _ (hsi.trans ht.symm),
        getD_append_of_len _ _ _ hsi]
      have step1 : (interleave2 sInit (deck.take m) ++ [z]).Perm
          ((deck.take m ++ sInit) ++ [z]) :=
        ((interleave2_perm _ _ (hsi.trans ht.symm)).trans
          List.perm_append_comm).append_right [z]
      have step2 : (deck.take m ++ sInit) ++ [z] = deck := by
        rw [List.append_assoc, ← hsec, List.take_append_drop]
      exact step1.trans (by rw [step2])

theorem inverseRiffle_perm_even (m : Nat) (deck : List Nat)
    (h : deck.length = 2 * m) (isIn : Bool) :
    (inverseRiffle isIn (2 * m) false deck).Perm deck := by
  have hev : deck.length % 2 = 0 := by omega
  cases isIn with
  | false =>
    rw [inverseRiffle_out_even m deck h]
    exact deinterleave_append_perm deck hev
  | true =>
    rw [inverseRiffle_in_even m deck h]
    exact List.perm_append_comm.trans (deinterleave_append_perm deck hev)

theorem inverseRiffle_perm_odd (m : Nat) (deck : List Nat)
    (h : deck.length = 2 * m + 1) (isIn : Bool) :
    (inverseRiffle isIn (2 * m + 1) true deck).Perm deck := by
  cases isIn with
  | false =>
    match deck, h with
    | a :: rest, h =>
      have hrest : rest.length = 2 * m := by simp at h; omega
      have hev : rest.length % 2 = 0 := by omega
      rw [inverseRiffle_out_odd m _ h, List.take_succ_cons, List.take_zero,
        List.drop_succ_cons, List.drop_zero]
      simp only [List.singleton_append, List.cons_append]
      exact (List.perm_append_comm.trans
        (deinterleave_append_perm rest hev)).cons a
  | true =>
    have hsc : (deck.take (2 * m)).length = 2 * m := by
      rw [List.length_take]; omega
    have hev : (deck.take (2 * m)).length % 2 = 0 := by omega
    rw [inverseRiffle_in_odd m deck h]
    have step1 : ((deinterleave (deck.take (2 * m))).2
        ++ (deinterleave (deck.take (2 * m))).1 ++ deck.drop (2 * m)).Perm
        ((deinterleave (deck.take (2 * m))).1
          ++ (deinterleave (deck.take (2 * m))).2 ++ deck.drop (2 * m)) :=
      (List.perm_append_comm).append_right _
    have step2 : ((deinterleave (deck.take (2 * m))).1
        ++ (deinterleave (deck.take (2 * m))).2 ++ deck.drop (2 * m)).Perm deck :=
      ((deinterleave_append_perm _ hev).append_right _).trans
        (by rw [List.take_append_drop])
    exact step1.trans step2

/-! ### Sortedness of the canonical deck -/

theorem is_sorted_of_sorted : ∀ l : List Nat, l.Sorted (· ≤ ·) →
    CardShuffler.is_sorted l = true
  | [], _ => rfl
  | [_], _ => rfl
  | a :: b :: rest, h => by
    simp only [CardShuffler.is_sorted, Bool.and_eq_true, decide_eq_true_eq]
    exact ⟨List.rel_of_sorted_cons h b (by simp),
      is_sorted_of_sorted (b :: rest) h.of_cons⟩

/-! ### The claims -/

/-- C1: for every `N ≥ 3` and every arrangement of the deck (any
permutation of `0..N-1`, with the recorded size and parity flag those of
`N`), applying `Outshuffle` then `InverseOutshuffle` restores the exact
pre-shuffle arrangement, and likewise `Inshuffle` then
`InverseInshuffle`; this covers both even and odd `N`. -/
theorem C1_riffle_roundtrip (N : Nat) (hN : 3 ≤ N) (s : CardShuffler)
    (hperm : s.m_deck.Perm (List.range N)) (hsize : s.m_deckSize = N)
    (hodd : s.m_bIsDeckOdd = (N % 2 == 1)) :
    ((s.PerformShuffle .OUTSHUFFLE).PerformShuffle .INV_OUTSHUFFLE).m_deck
        = s.m_deck
    ∧ ((s.PerformShuffle .INSHUFFLE).PerformShuffle .INV_INSHUFFLE).m_deck
        = s.m_deck := by
  have hlen : s.m_deck.length = N := by rw [hperm.length_eq, List.length_range]
  simp only [CardShuffler.PerformShuffle]
  rw [hsize, hodd]
  rcases Nat.even_or_odd N with ⟨m, hm⟩ | ⟨m, hm⟩
  · have hm2 : N = 2 * m := by omega
    subst hm2
    have hpar : ((2 * m) % 2 == 1) = false := by rw [Nat.mul_mod_right]; rfl
    rw [hpar]
    exact ⟨out_roundtrip_even m _ hlen, in_roundtrip_even m _ hlen⟩
  · subst hm
    have hpar : ((2 * m + 1) % 2 == 1) = true := by
      rw [show (2 * m + 1) % 2 = 1 from by omega]; rfl
    rw [hpar]
    exact ⟨out_roundtrip_odd m _ hlen, in_roundtrip_odd m _ hlen⟩

/-- Witness for C1 at `N = 5` with the canonical deck. -/
theorem C1_riffle_roundtrip_witness :
    deck5State.m_deck.Perm (List.range 5)
    ∧ ((deck5State.PerformShuffle .OUTSHUFFLE).PerformShuffle
          .INV_OUTSHUFFLE).m_deck = deck5State.m_deck
    ∧ ((deck5State.PerformShuffle .INSHUFFLE).PerformShuffle
          .INV_INSHUFFLE).m_deck = deck5State.m_deck :=
  ⟨by decide, C1_riffle_roundtrip 5 (by decide) deck5State (by decide) rfl rfl⟩

set_option maxRecDepth 100000 in
/-- C2: on the canonical 52-card deck, the restoration loop returns
exactly 8 for `Outshuffle` and exactly 52 for `Inshuffle` (fuel 100 is
ample; `some` means the unbounded C++ do-while terminates with that
count, counting from 1 for the first application). -/
theorem C2_restore_counts :
    (CardShuffler.RestoreDeck 100 deck52State .OUTSHUFFLE).map Prod.fst
        = some 8
    ∧ (CardShuffler.RestoreDeck 100 deck52State .INSHUFFLE).map Prod.fst
        = some 52 :=
  ⟨rfl, rfl⟩

/-- C4: every one of the six shuffle kinds maps a deck that is a
permutation of `0..N-1` (`N ≥ 3`, consistent recorded size and parity)
to a permutation of the same values: the multiset of items is
unchanged. -/
theorem C4_perm_invariant (kind : ShuffleType) (N : Nat) (hN : 3 ≤ N)
    (s : CardShuffler) (hperm : s.m_deck.Perm (List.range N))
    (hsize : s.m_deckSize = N) (hodd : s.m_bIsDeckOdd = (N % 2 == 1)) :
    ((s.PerformShuffle kind).m_deck).Perm s.m_deck := by
  have hlen : s.m_deck.length = N := by rw [hperm.length_eq, List.length_range]
  rcases Nat.even_or_odd N with ⟨m, hm⟩ | ⟨m, hm⟩
  · have hm2 : N = 2 * m := by omega
    subst hm2
    have hpar : ((2 * m) % 2 == 1) = false := by rw [Nat.mul_mod_right]; rfl
    rw [hpar] at hodd
    cases kind with
    | STL_SHUFFLE =>
      simp only [CardShuffler.PerformShuffle]
      exact fyLoop_perm _ _ _ (by omega)
    | FISHER_YATES =>
      simp only [CardShuffler.PerformShuffle]
      rw [hsize]
      exact fyLoop_perm _ _ _ (by omega)
    | OUTSHUFFLE =>
      simp only [CardShuffler.PerformShuffle]
      rw [hsize, hodd]
      exact forwardRiffle_perm_even m _ hlen false
    | INSHUFFLE =>
      simp only [CardShuffler.PerformShuffle]
      rw [hsize, hodd]
      exact forwardRiffle_perm_even m _ hlen true
    | INV_OUTSHUFFLE =>
      simp only [CardShuffler.PerformShuffle]
      rw [hsize, hodd]
      exact inverseRiffle_perm_even m _ hlen false
    | INV_INSHUFFLE =>
      simp only [CardShuffler.PerformShuffle]
      rw [hsize, hodd]
      exact inverseRiffle_perm_even m _ hlen true
  · subst hm
    have hpar : ((2 * m + 1) % 2 == 1) = true := by
      rw [show (2 * m + 1) % 2 = 1 from by omega]; rfl
    rw [hpar] at hodd
    cases kind with
    | STL_SHUFFLE =>
      simp only [CardShuffler.PerformShuffle]
      exact fyLoop_perm _ _ _ (by omega)
    | FISHER_YATES =>
      simp only [CardShuffler.PerformShuffle]
      rw [hsize]
      exact fyLoop_perm _ _ _ (by omega)
    | OUTSHUFFLE =>
      simp only [CardShuffler.PerformShuffle]
      rw [hsize, hodd]
      exact forwardRiffle_perm_odd m _ hlen false
    | INSHUFFLE =>
      simp only [CardShuffler.PerformShuffle]
      rw [hsize, hodd]
      exact forwardRiffle_perm_odd m _ hlen true
    | INV_OUTSHUFFLE =>
      simp only [CardShuffler.PerformShuffle]
      rw [hsize, hodd]
      exact inverseRiffle_perm_odd m _ hlen false
    | INV_INSHUFFLE =>
      simp only [CardShuffler.PerformShuffle]
      rw [hsize, hodd]
      exact inverseRiffle_perm_odd m _ hlen true

/-- Witness for C4 at `N = 5`, kind `OUTSHUFFLE`, canonical deck. -/
theorem C4_perm_invariant_witness :
    deck5State.m_deck.Perm (List.range 5)
    ∧ ((deck5State.PerformShuffle .OUTSHUFFLE).m_deck).Perm deck5State.m_deck :=
  ⟨by decide,
    C4_perm_invariant .OUTSHUFFLE 5 (by decide) deck5State (by decide) rfl rfl⟩

/-- C5: for every `N ≥ 3`, `GenerateDeck N` returns the ascending deck
`0..N-1` of exactly `N` items, stores it as the new deck (replacing any
previous content, whatever the prior state `s`), and `IsDeckRestored`
is true immediately afterwards. -/
theorem C5_generate (N : Nat) (hN : 3 ≤ N) (s : CardShuffler) :
    (s.GenerateDeck N).1 = List.range N
    ∧ (s.GenerateDeck N).2.m_deck = List.range N
    ∧ ((s.GenerateDeck N).2.m_deck).length = N
    ∧ (s.GenerateDeck N).2.m_deckSize = N
    ∧ (s.GenerateDeck N).2.IsDeckRestored = true := by
  have hnot : ¬ N < 3 := by omega
  have hgen : s.GenerateDeck N = (List.range N,
      { s with m_deck := List.range N, m_DeckCopy := [], m_deckSize := N,
               m_bIsDeckOdd := N % 2 == 1 }) := by
    simp only [CardShuffler.GenerateDeck, if_neg hnot]
  rw [hgen]
  exact ⟨rfl, rfl, List.length_range N, rfl,
    is_sorted_of_sorted _ (List.sorted_le_range N)⟩

/-- Witness for C5 at `N = 3` on a freshly constructed engine. -/
theorem C5_generate_witness :
    ((CardShuffler.init 0).GenerateDeck 3).1 = List.range 3
    ∧ ((CardShuffler.init 0).GenerateDeck 3).2.m_deck = List.range 3
    ∧ (((CardShuffler.init 0).GenerateDeck 3).2.m_deck).length = 3
    ∧ ((CardShuffler.init 0).GenerateDeck 3).2.m_deckSize = 3
    ∧ ((CardShuffler.init 0).GenerateDeck 3).2.IsDeckRestored = true :=
  C5_generate 3 (by decide) (CardShuffler.init 0)

/-- C6: for every `N < 3`, `GenerateDeck N` fails without an exception
(total function, no `Option`/`Except` needed) and returns an empty,
zero-length deck. -/
theorem C6_generate_undersized (N : Nat) (hN : N < 3) (s : CardShuffler) :
    (s.GenerateDeck N).1 = [] ∧ ((s.GenerateDeck N).1).length = 0 := by
  have hgen : s.GenerateDeck N = ([], s) := by
    simp only [CardShuffler.GenerateDeck, if_pos hN]
  rw [hgen]
  exact ⟨rfl, rfl⟩

/-- Witness for C6 at `N = 2`. -/
theorem C6_generate_undersized_witness :
    (deck5State.GenerateDeck 2).1 = []
    ∧ ((deck5State.GenerateDeck 2).1).length = 0 :=
  C6_generate_undersized 2 (by decide) deck5State

/-- C7: the four riffle kinds are deterministic and never consult the
random engine: on any two states with equal decks and equal recorded
size and parity (the engine states may differ arbitrarily), the shuffled
decks are equal, and both engine states are left unchanged. -/
theorem C7_riffles_deterministic (kind : ShuffleType)
    (hk : kind = .OUTSHUFFLE ∨ kind = .INSHUFFLE ∨ kind = .INV_OUTSHUFFLE
      ∨ kind = .INV_INSHUFFLE)
    (s1 s2 : CardShuffler) (hdeck : s1.m_deck = s2.m_deck)
    (hsize : s1.m_deckSize = s2.m_deckSize)
    (hodd : s1.m_bIsDeckOdd = s2.m_bIsDeckOdd) :
    (s1.PerformShuffle kind).m_deck = (s2.PerformShuffle kind).m_deck
    ∧ (s1.PerformShuffle kind).m_urng = s1.m_urng
    ∧ (s2.PerformShuffle kind).m_urng = s2.m_urng := by
  rcases hk with rfl | rfl | rfl | rfl <;>
    simp [CardShuffler.PerformShuffle, hdeck, hsize, hodd]

/-- Witness for C7: outshuffle on two copies of the 5-card state whose
engine states differ. -/
theorem C7_riffles_deterministic_witness :
    (deck5State.PerformShuffle .OUTSHUFFLE).m_deck
        = (({ deck5State with m_urng := 999 } : CardShuffler).PerformShuffle
              .OUTSHUFFLE).m_deck
    ∧ (deck5State.PerformShuffle .OUTSHUFFLE).m_urng = deck5State.m_urng
    ∧ (({ deck5State with m_urng := 999 } : CardShuffler).PerformShuffle
          .OUTSHUFFLE).m_urng
        = ({ deck5State with m_urng := 999 } : CardShuffler).m_urng :=
  C7_riffles_deterministic .OUTSHUFFLE (Or.inl rfl) deck5State
    { deck5State with m_urng := 999 } rfl rfl rfl

/-- C8: concrete small cases: on the canonical 5-card deck,
`OUTSHUFFLE` yields `[0,3,1,4,2]` and a further `INV_OUTSHUFFLE` yields
`[0,1,2,3,4]`; on the canonical 6-card deck, `INSHUFFLE` yields
`[3,0,4,1,5,2]`. -/
theorem C8_concrete_cases :
    (deck5State.PerformShuffle .OUTSHUFFLE).m_deck = [0, 3, 1, 4, 2]
    ∧ ((deck5State.PerformShuffle .OUTSHUFFLE).PerformShuffle
          .INV_OUTSHUFFLE).m_deck = [0, 1, 2, 3, 4]
    ∧ (deck6State.PerformShuffle .INSHUFFLE).m_deck = [3, 0, 4, 1, 5, 2] := by
  decide

/-- C9: a failed generation (`N < 3`) is atomic: the entire engine state
is returned unchanged, so the stored deck, the recorded size, the parity
flag, and a subsequent `GetDeck` all read exactly as before the call. -/
theorem C9_generate_atomic (N : Nat) (hN : N < 3) (s : CardShuffler) :
    (s.GenerateDeck N).2 = s
    ∧ (s.GenerateDeck N).2.m_deck = s.m_deck
    ∧ (s.GenerateDeck N).2.m_deckSize = s.m_deckSize
    ∧ (s.GenerateDeck N).2.m_bIsDeckOdd = s.m_bIsDeckOdd
    ∧ (s.GenerateDeck N).2.GetDeck = s.GetDeck := by
  have hgen : s.GenerateDeck N = ([], s) := by
    simp only [CardShuffler.GenerateDeck, if_pos hN]
  rw [hgen]
  exact ⟨rfl, rfl, rfl, rfl, rfl⟩

/-- Witness for C9 at `N = 2` on a state holding a shuffled 5-card deck. -/
theorem C9_generate_atomic_witness :
    ((deck5State.PerformShuffle .OUTSHUFFLE).GenerateDeck 2).2
        = deck5State.PerformShuffle .OUTSHUFFLE
    ∧ ((deck5State.PerformShuffle .OUTSHUFFLE).GenerateDeck 2).2.m_deck
        = (deck5State.PerformShuffle .OUTSHUFFLE).m_deck
    ∧ ((deck5State.PerformShuffle .OUTSHUFFLE).GenerateDeck 2).2.m_deckSize
        = (deck5State.PerformShuffle .OUTSHUFFLE).m_deckSize
    ∧ ((deck5State.PerformShuffle .OUTSHUFFLE).GenerateDeck 2).2.m_bIsDeckOdd
        = (deck5State.PerformShuffle .OUTSHUFFLE).m_bIsDeckOdd
    ∧ ((deck5State.PerformShuffle .OUTSHUFFLE).GenerateDeck 2).2.GetDeck
        = (deck5State.PerformShuffle .OUTSHUFFLE).GetDeck :=
  C9_generate_atomic 2 (by decide) (deck5State.PerformShuffle .OUTSHUFFLE)

/-- C10: on an engine whose deck is empty -- freshly constructed, or
after only failed generate calls (`k < 3`) -- `IsDeckRestored` returns
true: the empty deck counts as sorted even though no canonical deck was
ever created. -/
theorem C10_empty_restored (seed k : Nat) (hk : k < 3) :
    (CardShuffler.init seed).m_deck = []
    ∧ (CardShuffler.init seed).IsDeckRestored = true
    ∧ (((CardShuffler.init seed).GenerateDeck k).2).m_deck = []
    ∧ (((CardShuffler.init seed).GenerateDeck k).2).IsDeckRestored = true := by
  have hgen : (CardShuffler.init seed).GenerateDeck k
      = ([], CardShuffler.init seed) := by
    simp only [CardShuffler.GenerateDeck, if_pos hk]
  rw [hgen]
  exact ⟨rfl, rfl, rfl, rfl⟩

/-- Witness for C10 at seed 0, `k = 2`. -/
theorem C10_empty_restored_witness :
    (CardShuffler.init 0).m_deck = []
    ∧ (CardShuffler.init 0).IsDeckRestored = true
    ∧ (((CardShuffler.init 0).GenerateDeck 2).2).m_deck = []
    ∧ (((CardShuffler.init 0).GenerateDeck 2).2).IsDeckRestored = true :=
  C10_empty_restored 0 2 (by decide)

/-- C3 as stated fails on the code: at `N = 5` with the canonical deck
`[0,1,2,3,4]`, writing half A (deck positions 1,3,...) first and half B
(deck positions 2,4,...) second, as the claim describes, would produce
`[0,1,3,2,4]`, but the engine writes B first and produces `[0,2,4,1,3]`
(`inverseRiffle` copies `vecSecondHalf` to position 1 and `vecFirstHalf`
to position `half1 + 1`; moreover its `half1` for an odd deck is
`N / 2 = 2`, not the forward outshuffle's `ceil(N/2) = 3`). -/
theorem C3_counterexample :
    (deck5State.PerformShuffle .INV_OUTSHUFFLE).m_deck = [0, 2, 4, 1, 3]
    ∧ invOutOddClaimed deck5State.m_deck = [0, 1, 3, 2, 4]
    ∧ (deck5State.PerformShuffle .INV_OUTSHUFFLE).m_deck
        ≠ invOutOddClaimed deck5State.m_deck := by
  decide

/-- C3 (amended): for every odd `N ≥ 3` and every deck of length `N`
(with consistent recorded size and parity), `INV_OUTSHUFFLE` leaves
position 0 untouched, deinterleaves only positions `1..N-1` into half A
(items at deck positions 1,3,5,...) and half B (items at deck positions
2,4,6,...), and writes B followed by A into positions `[1, N)`; the
halves each have length `half1 = N / 2` (the code sizes the inverse's
`half1` as `floor(N/2)` for an odd deck, not the forward outshuffle's
`ceil(N/2)`). -/
theorem C3_invOut_odd_layout (N m : Nat) (hm : N = 2 * m + 1) (hN : 3 ≤ N)
    (s : CardShuffler) (hlen : s.m_deck.length = N) (hsize : s.m_deckSize = N)
    (hodd : s.m_bIsDeckOdd = true) :
    ∃ A B : List Nat,
      A.length = N / 2 ∧ B.length = N / 2
      ∧ (∀ i, i < N / 2 → A.getD i 0 = s.m_deck.getD (1 + 2 * i) 0)
      ∧ (∀ i, i < N / 2 → B.getD i 0 = s.m_deck.getD (2 + 2 * i) 0)
      ∧ (s.PerformShuffle .INV_OUTSHUFFLE).m_deck
          = s.m_deck.take 1 ++ B ++ A
      ∧ ((s.PerformShuffle .INV_OUTSHUFFLE).m_deck).getD 0 0
          = s.m_deck.getD 0 0 := by
  subst hm
  have hdl : (s.m_deck.drop 1).length = 2 * m := by
    rw [List.length_drop, hlen]; omega
  refine ⟨(deinterleave (s.m_deck.drop 1)).1,
    (deinterleave (s.m_deck.drop 1)).2, ?_, ?_, ?_, ?_, ?_, ?_⟩
  · rw [deinterleave_fst_length, hdl]; omega
  · rw [deinterleave_snd_length, hdl]; omega
  · intro i hi
    have hi2 : i < (s.m_deck.drop 1).length / 2 := by rw [hdl]; omega
    rw [deinterleave_fst_getD _ _ hi2]
    simp only [List.getD_eq_getElem?_getD, List.getElem?_drop]
  · intro i hi
    have hi2 : i < (s.m_deck.drop 1).length / 2 := by rw [hdl]; omega
    rw [deinterleave_snd_getD _ _ hi2,
      show 2 + 2 * i = 1 + (2 * i + 1) from by omega]
    simp only [List.getD_eq_getElem?_getD, List.getElem?_drop]
  · simp only [CardShuffler.PerformShuffle]
    rw [hsize, hodd]
    exact inverseRiffle_out_odd m _ hlen
  · simp only [CardShuffler.PerformShuffle]
    rw [hsize, hodd, inverseRiffle_out_odd m _ hlen]
    rcases hd : s.m_deck with _ | ⟨c, rest⟩
    · rw [hd] at hlen; simp only [List.length_nil] at hlen; omega
    · simp [List.take_succ_cons]

/-- Witness for the amended C3 at `N = 5` with the canonical deck. -/
theorem C3_invOut_odd_layout_witness :
    ∃ A B : List Nat,
      A.length = 5 / 2 ∧ B.length = 5 / 2
      ∧ (∀ i, i < 5 / 2 → A.getD i 0 = deck5State.m_deck.getD (1 + 2 * i) 0)
      ∧ (∀ i, i < 5 / 2 → B.getD i 0 = deck5State.m_deck.getD (2 + 2 * i) 0)
      ∧ (deck5State.PerformShuffle .INV_OUTSHUFFLE).m_deck
          = deck5State.m_deck.take 1 ++ B ++ A
      ∧ ((deck5State.PerformShuffle .INV_OUTSHUFFLE).m_deck).getD 0 0
          = deck5State.m_deck.getD 0 0 :=
  C3_invOut_odd_layout 5 2 rfl (by decide) deck5State rfl rfl rfl
